import Mathlib

/-!
Verification of the consensus core of `src/Blockchain.py`, a minimal
educational blockchain.  The Python code is shallowly embedded:

* `hashlib.sha256(...).hexdigest()` is implemented bit-for-bit as a pure
  function over byte lists (naturals below 256), with 32-bit words
  represented as naturals reduced modulo `2 ^ 32`;
* `json.dumps(block, sort_keys=True)` (the default separators `", "` and
  `": "`, `ensure_ascii=True`) is implemented concretely for the fixed
  shapes of block and transaction dictionaries built by the code;
* the mutable `Blockchain` object becomes a state record threaded through
  the operations; the wall clock (`time()`, a float in Python) is modelled
  as a natural-number clock value supplied explicitly to each operation
  that reads it, serialized in JSON as its decimal representation;
* Python expressions that can raise `IndexError` (`self.chain[-1]` on an
  empty chain) are modelled with `Option`.
-/

/-! ## SHA-256 over byte lists, words as naturals mod 2 ^ 32 -/

def MOD32 : Nat := 4294967296

def rotr32 (x n : Nat) : Nat := ((x >>> n) ||| (x <<< (32 - n))) % MOD32

def not32 (x : Nat) : Nat := Nat.xor x (MOD32 - 1)

def bigSigma0 (x : Nat) : Nat :=
  Nat.xor (Nat.xor (rotr32 x 2) (rotr32 x 13)) (rotr32 x 22)

def bigSigma1 (x : Nat) : Nat :=
  Nat.xor (Nat.xor (rotr32 x 6) (rotr32 x 11)) (rotr32 x 25)

def smallSigma0 (x : Nat) : Nat :=
  Nat.xor (Nat.xor (rotr32 x 7) (rotr32 x 18)) (x >>> 3)

def smallSigma1 (x : Nat) : Nat :=
  Nat.xor (Nat.xor (rotr32 x 17) (rotr32 x 19)) (x >>> 10)

def chFn (x y z : Nat) : Nat := Nat.xor (Nat.land x y) (Nat.land (not32 x) z)

def majFn (x y z : Nat) : Nat :=
  Nat.xor (Nat.xor (Nat.land x y) (Nat.land x z)) (Nat.land y z)

def sha256K : List Nat :=
  [1116352408, 1899447441, 3049323471, 3921009573, 961987163,
   1508970993, 2453635748, 2870763221, 3624381080, 310598401,
   607225278, 1426881987, 1925078388, 2162078206, 2614888103,
   3248222580, 3835390401, 4022224774, 264347078, 604807628,
   770255983, 1249150122, 1555081692, 1996064986, 2554220882,
   2821834349, 2952996808, 3210313671, 3336571891, 3584528711,
   113926993, 338241895, 666307205, 773529912, 1294757372,
   1396182291, 1695183700, 1986661051, 2177026350, 2456956037,
   2730485921, 2820302411, 3259730800, 3345764771, 3516065817,
   3600352804, 4094571909, 275423344, 430227734, 506948616,
   659060556, 883997877, 958139571, 1322822218, 1537002063,
   1747873779, 1955562222, 2024104815, 2227730452, 2361852424,
   2428436474, 2756734187, 3204031479, 3329325298]

def sha256H0 : List Nat :=
  [1779033703, 3144134277, 1013904242, 2773480762,
   1359893119, 2600822924, 528734635, 1541459225]

/-- SHA-256 padding: append `0x80`, zero bytes until the length is 56 mod 64,
then the 8-byte big-endian bit length of the original message. -/
def padMessage (msg : List Nat) : List Nat :=
  let len := msg.length
  let zeros := (55 + 64 - len % 64) % 64
  let bitLen := len * 8
  msg ++ [0x80] ++ List.replicate zeros 0 ++
    (List.range 8).map (fun i => (bitLen >>> ((7 - i) * 8)) % 256)

/-- Big-endian grouping of bytes into 32-bit words. -/
def bytesToWords : List Nat → List Nat
  | b0 :: b1 :: b2 :: b3 :: rest =>
      (((b0 * 256 + b1) * 256 + b2) * 256 + b3) :: bytesToWords rest
  | _ => []

/-- One extension step of the message schedule: append
`σ1 w[n-2] + w[n-7] + σ0 w[n-15] + w[n-16]` (mod 2^32). -/
def extendStep (ws : List Nat) : List Nat :=
  let n := ws.length
  ws ++ [(smallSigma1 (ws.getD (n - 2) 0) + ws.getD (n - 7) 0 +
          smallSigma0 (ws.getD (n - 15) 0) + ws.getD (n - 16) 0) % MOD32]

/-- Extend a 16-word block to a 64-word message schedule. -/
def schedule (ws : List Nat) : List Nat := extendStep^[48] ws

/-- One round of SHA-256 compression on the 8-word working state. -/
def compressRound (st : List Nat) (kw : Nat × Nat) : List Nat :=
  match st with
  | [a, b, c, d, e, f, g, h] =>
      let t1 := (h + bigSigma1 e + chFn e f g + kw.1 + kw.2) % MOD32
      let t2 := (bigSigma0 a + majFn a b c) % MOD32
      [(t1 + t2) % MOD32, a, b, c, (d + t1) % MOD32, e, f, g]
  | other => other

/-- Process one 16-word block, updating the 8-word hash state. -/
def compressBlock (h : List Nat) (block : List Nat) : List Nat :=
  let out := (sha256K.zip (schedule block)).foldl compressRound h
  (h.zip out).map (fun p => (p.1 + p.2) % MOD32)

/-- The padded message split into 16-word blocks. -/
def messageBlocks (msg : List Nat) : List (List Nat) :=
  let ws := bytesToWords (padMessage msg)
  (List.range (ws.length / 16)).map (fun i => (ws.drop (16 * i)).take 16)

/-- SHA-256 of a byte list, as the final 8-word state. -/
def sha256Words (msg : List Nat) : List Nat :=
  (messageBlocks msg).foldl compressBlock sha256H0

def hexDigit (n : Nat) : Char :=
  if n < 10 then Char.ofNat (48 + n) else Char.ofNat (87 + n)

/-- Lowercase hexadecimal rendering of one 32-bit word (8 characters). -/
def wordHex (w : Nat) : List Char :=
  (List.range 8).map (fun i => hexDigit ((w >>> ((7 - i) * 4)) % 16))

/-- UTF-8 encoding of one Unicode code point, as Python `str.encode()` does. -/
def utf8Bytes (c : Nat) : List Nat :=
  if c < 0x80 then [c]
  else if c < 0x800 then [0xc0 + c / 64, 0x80 + c % 64]
  else if c < 0x10000 then
    [0xe0 + c / 4096, 0x80 + (c / 64) % 64, 0x80 + c % 64]
  else
    [0xf0 + c / 262144, 0x80 + (c / 4096) % 64, 0x80 + (c / 64) % 64,
     0x80 + c % 64]

def strBytes (s : String) : List Nat :=
  (s.data.map (fun ch => utf8Bytes ch.toNat)).flatten

/-- The embedding of `hashlib.sha256(s.encode()).hexdigest()`: the 64-character lowercase
hexadecimal SHA-256 digest of the UTF-8 encoding of `s`. -/
def sha256String (s : String) : String :=
  String.mk (((sha256Words (strBytes s)).map wordHex).flatten)

theorem sha256_empty :
    sha256String "" =
      "e3b0c44298fc1c149afbf4c8996fb92427ae41e4649b934ca495991b7852b855" := by
  decide

theorem sha256_abc :
    sha256String "abc" =
      "ba7816bf8f01cfea414140de5dae2223b00361a396177a9cb410ff61f20015ad" := by
  decide

/-! ## Data model -/

/-- A Python value that can appear in the `previous_hash` field: the genesis
call passes the integer literal `1`, ordinary blocks store a digest string. -/
inductive PyVal where
  | int (n : Int)
  | str (s : String)
deriving DecidableEq

/-- Python truthiness of a `PyVal`, as tested by `previous_hash or ...`:
the integer `0` and the empty string are falsy. -/
def PyVal.truthy : PyVal → Bool
  | .int n => n != 0
  | .str s => s != ""

/-- A transaction dictionary `{sender, recipient, amount}`. -/
structure Transaction where
  sender : String
  recipient : String
  amount : Int
deriving DecidableEq

/-- A block dictionary `{index, timestamp, transactions, proof,
previous_hash}`.  The wall-clock timestamp is modelled as a natural-number
clock value. -/
structure Block where
  index : Nat
  timestamp : Nat
  transactions : List Transaction
  proof : Int
  previous_hash : PyVal
deriving DecidableEq

instance : Inhabited Block := ⟨⟨0, 0, [], 0, .int 0⟩⟩

/-- The mutable state of a `Blockchain` object. -/
structure Blockchain where
  chain : List Block
  currentTransactions : List Transaction
  nodes : Finset String
deriving DecidableEq

/-! ## `json.dumps(·, sort_keys=True)` for the shapes the code builds -/

def hexDigit4 (n : Nat) : List Char :=
  [hexDigit ((n >>> 12) % 16), hexDigit ((n >>> 8) % 16),
   hexDigit ((n >>> 4) % 16), hexDigit (n % 16)]

/-- The escape of one character inside a JSON string literal, as `json.dumps`
with its default `ensure_ascii=True` produces it: printable ASCII other than
`"` and `\` is kept, everything else is escaped (`\uXXXX` with a surrogate
pair above the basic plane). -/
def jsonEscapeChar (c : Char) : List Char :=
  let n := c.toNat
  if c = '"' then ['\\', '"']
  else if c = '\\' then ['\\', '\\']
  else if n = 8 then ['\\', 'b']
  else if n = 9 then ['\\', 't']
  else if n = 10 then ['\\', 'n']
  else if n = 12 then ['\\', 'f']
  else if n = 13 then ['\\', 'r']
  else if 0x20 ≤ n ∧ n ≤ 0x7e then [c]
  else if n < 0x10000 then '\\' :: 'u' :: hexDigit4 n
  else
    ('\\' :: 'u' :: hexDigit4 (0xd800 + (n - 0x10000) / 1024)) ++
    ('\\' :: 'u' :: hexDigit4 (0xdc00 + (n - 0x10000) % 1024))

/-- A JSON string literal. -/
def jsonString (s : String) : String :=
  String.mk ('"' :: (s.data.map jsonEscapeChar).flatten ++ ['"'])

/-- The JSON form of a `previous_hash` value. -/
def PyVal.json : PyVal → String
  | .int n => toString n
  | .str s => jsonString s

/-- The `json.dumps` form of a transaction dictionary, keys sorted
(`amount`, `recipient`, `sender`), default separators `", "` and `": "`. -/
def Transaction.json (t : Transaction) : String :=
  "\x7b\"amount\": " ++ toString t.amount ++ ", \"recipient\": " ++
    jsonString t.recipient ++ ", \"sender\": " ++ jsonString t.sender ++ "\x7d"

def jsonList (items : List String) : String :=
  "[" ++ String.intercalate ", " items ++ "]"

/-- The `json.dumps(block, sort_keys=True)` form of a block: keys sorted (`index`,
`previous_hash`, `proof`, `timestamp`, `transactions`). -/
def Block.json (b : Block) : String :=
  "\x7b\"index\": " ++ toString b.index ++ ", \"previous_hash\": " ++
    b.previous_hash.json ++ ", \"proof\": " ++ toString b.proof ++
    ", \"timestamp\": " ++ toString b.timestamp ++ ", \"transactions\": " ++
    jsonList (b.transactions.map Transaction.json) ++ "\x7d"

/-! ## The `Blockchain` operations -/

namespace Blockchain

/-- The embedding of `Blockchain.hash`: SHA-256 hex digest of the key-sorted JSON dump. -/
def hash (block : Block) : String := sha256String block.json

/-- The embedding of `Blockchain.valid_proof`: SHA-256 of the separator-free concatenation
`f'{last_proof}{proof}{last_hash}'`, accepted when the first five characters
of the hex digest equal `"00000"`. -/
def valid_proof (last_proof proof : Int) (last_hash : String) : Bool :=
  let guess := toString last_proof ++ toString proof ++ last_hash
  let guess_hash := sha256String guess
  guess_hash.take 5 == "00000"

/-- The embedding of `Blockchain.new_block`: build the block, reset the transaction pool,
append the block to the chain and return it.  The Python expression
`previous_hash or self.hash(self.chain[-1])` evaluates its right operand
only when `previous_hash` is falsy; on an empty chain that operand raises
`IndexError`, modelled by `none`. -/
def new_block (bc : Blockchain) (proof : Int) (previous_hash : PyVal)
    (t : Nat) : Option (Block × Blockchain) :=
  (if previous_hash.truthy then some previous_hash
   else bc.chain.getLast?.map (fun lb => PyVal.str (hash lb))).map
    (fun ph =>
      let block : Block :=
        { index := bc.chain.length + 1
          timestamp := t
          transactions := bc.currentTransactions
          proof := proof
          previous_hash := ph }
      (block,
       { bc with currentTransactions := [], chain := bc.chain ++ [block] }))

/-- The state before the genesis call: empty chain, empty pool, empty node
set. -/
def empty : Blockchain := { chain := [], currentTransactions := [], nodes := ∅ }

/-- The embedding of `Blockchain.__init__` at clock value `t`: the empty state followed by the
genesis call `new_block(previous_hash=1, proof=100)`.  The sentinel `1` is
truthy, so the call always succeeds; the `none` fallback is unreachable. -/
def init (t : Nat) : Blockchain :=
  match empty.new_block 100 (.int 1) t with
  | some (_, bc) => bc
  | none => empty

/-- The embedding of `Blockchain.new_transaction`: append `{sender, recipient, amount}` to the
pool, then return `self.last_block['index'] + 1`.  On an empty chain the
index read raises `IndexError` (`none`); the pool mutation has already
happened. -/
def new_transaction (bc : Blockchain) (sender recipient : String)
    (amount : Int) : Option Nat × Blockchain :=
  let bc' := { bc with currentTransactions :=
      bc.currentTransactions ++ [⟨sender, recipient, amount⟩] }
  (bc'.chain.getLast?.map (fun lb => lb.index + 1), bc')

/-- The `last_block` property: `self.chain[-1]`. -/
def last_block (bc : Blockchain) : Option Block := bc.chain.getLast?

/-- The embedding of `Blockchain.proof_of_work`: the loop `proof = 0; while not
valid_proof(last_proof, proof, last_hash): proof += 1; return proof`
returns the least accepted proof and terminates exactly when an accepted
proof exists, which is taken as a hypothesis. -/
def proof_of_work (last_block : Block)
    (h : ∃ p : Nat, valid_proof last_block.proof (Int.ofNat p)
        (hash last_block) = true) : Nat :=
  Nat.find h

end Blockchain

/-- The `/mine` route handler: read the last block, run proof-of-work on it,
append the reward transaction `{sender: "0", recipient: node_identifier,
amount: 1}` to the pool, and forge the new block with
`previous_hash = hash(last_block)`. -/
def mine (bc : Blockchain) (node_identifier : String) (t : Nat)
    (hne : bc.chain ≠ [])
    (hp : ∃ p : Nat, Blockchain.valid_proof (bc.chain.getLast hne).proof
        (Int.ofNat p) (Blockchain.hash (bc.chain.getLast hne)) = true) :
    Option (Block × Blockchain) :=
  let lb := bc.chain.getLast hne
  let proof := Blockchain.proof_of_work lb hp
  let bc1 := (bc.new_transaction "0" node_identifier 1).2
  let previous_hash := Blockchain.hash lb
  bc1.new_block (Int.ofNat proof) (PyVal.str previous_hash) t

/-- The genesis block of `Blockchain.init 0`, written out. -/
def genesisBlock0 : Block := ⟨1, 0, [], 100, .int 1⟩

/-- The serializer agrees with `json.dumps` on the genesis block. -/
theorem genesis_json :
    genesisBlock0.json =
      "\x7b\"index\": 1, \"previous_hash\": 1, \"proof\": 100, \"timestamp\": 0, \"transactions\": []\x7d" := by
  decide

/-- The block hash of the clock-0 genesis block, computed. -/
theorem genesis_hash :
    Blockchain.hash genesisBlock0 =
      "ad1202098ddaa2c7ba092ed8e65662d9826a9b20a115102a8c4e9df7886d8633" := by
  decide

/-- An accepted proof-of-work nonce for the clock-0 genesis block, found by
exhaustive search. -/
def demoNonce : Nat := 2259694

set_option maxRecDepth 8000 in
theorem demoNonce_valid :
    Blockchain.valid_proof 100 (Int.ofNat demoNonce)
      (Blockchain.hash genesisBlock0) = true := by
  decide

/-! ## Structural lemmas: every digest has 64 characters -/

theorem compressRound_length (st : List Nat) (kw : Nat × Nat) :
    (compressRound st kw).length = st.length := by
  unfold compressRound
  split <;> simp

theorem foldl_compressRound_length (l : List (Nat × Nat)) (st : List Nat) :
    (l.foldl compressRound st).length = st.length := by
  induction l generalizing st with
  | nil => rfl
  | cons a l ih => rw [List.foldl_cons, ih, compressRound_length]

theorem compressBlock_length (st b : List Nat) :
    (compressBlock st b).length = st.length := by
  unfold compressBlock
  simp [foldl_compressRound_length]

theorem foldl_compressBlock_length (bs : List (List Nat)) (st : List Nat) :
    (bs.foldl compressBlock st).length = st.length := by
  induction bs generalizing st with
  | nil => rfl
  | cons b bs ih => rw [List.foldl_cons, ih, compressBlock_length]

theorem sha256Words_length (m : List Nat) : (sha256Words m).length = 8 := by
  unfold sha256Words
  rw [foldl_compressBlock_length]
  rfl

theorem wordHex_length (w : Nat) : (wordHex w).length = 8 := by
  unfold wordHex
  simp

theorem sha256String_data_length (s : String) :
    (sha256String s).data.length = 64 := by
  show (((sha256Words (strBytes s)).map wordHex).flatten).length = 64
  rw [List.length_flatten, List.map_map]
  have h : (List.length ∘ wordHex) = fun _ : Nat => 8 := by
    funext w
    exact wordHex_length w
  rw [h, List.map_const', List.sum_replicate, sha256Words_length]
  rfl

theorem sha256String_length (s : String) : (sha256String s).length = 64 :=
  sha256String_data_length s

theorem sha256String_ne_empty (s : String) : sha256String s ≠ "" := by
  intro h
  have h64 := sha256String_data_length s
  rw [h] at h64
  simp at h64

theorem hash_ne_empty (b : Block) : Blockchain.hash b ≠ "" :=
  sha256String_ne_empty _

/-! ## C3: characterization of `valid_proof` -/

/-- C3: `valid_proof(last_proof, proof, last_hash)` returns true iff the
SHA-256 hex digest of the separator-free concatenation of the decimal
representations of `last_proof` and `proof` followed by `last_hash` has `'0'`
as each of its first 5 characters; consequently every accepted triple yields
a digest starting with `"00000"`. -/
theorem valid_proof_leading_zeros (last_proof proof : Int) (last_hash : String) :
    (Blockchain.valid_proof last_proof proof last_hash = true ↔
      ∀ c ∈ (sha256String (toString last_proof ++ toString proof ++
        last_hash)).data.take 5, c = '0') ∧
    (Blockchain.valid_proof last_proof proof last_hash = true →
      (sha256String (toString last_proof ++ toString proof ++
        last_hash)).take 5 = "00000") := by
  have hval : Blockchain.valid_proof last_proof proof last_hash =
      ((sha256String (toString last_proof ++ toString proof ++
        last_hash)).take 5 == "00000") := rfl
  have hlen := sha256String_data_length
    (toString last_proof ++ toString proof ++ last_hash)
  constructor
  · rw [hval, beq_iff_eq, String.take_eq, String.ext_iff]
    show _ = List.replicate 5 '0' ↔ _
    rw [List.eq_replicate_iff]
    constructor
    · exact fun h => h.2
    · intro h
      refine ⟨?_, h⟩
      rw [List.length_take, hlen]
      rfl
  · rw [hval, beq_iff_eq]
    exact id

/-! ## Behaviour of `__init__`, `new_block` and `new_transaction` -/

/-- The state `Blockchain.init t` written out: one genesis block, empty pool, empty
node set. -/
theorem genesis_state (t : Nat) :
    Blockchain.init t =
      { chain := [⟨1, t, [], 100, .int 1⟩], currentTransactions := [],
        nodes := ∅ } := rfl

/-- When `previous_hash` is truthy, `new_block` succeeds and stores it as
given. -/
theorem new_block_truthy (bc : Blockchain) (proof : Int) (ph : PyVal) (t : Nat)
    (h : ph.truthy = true) :
    bc.new_block proof ph t = some
      (⟨bc.chain.length + 1, t, bc.currentTransactions, proof, ph⟩,
       { bc with currentTransactions := [],
                 chain := bc.chain ++ [⟨bc.chain.length + 1, t,
                   bc.currentTransactions, proof, ph⟩] }) := by
  unfold Blockchain.new_block
  rw [h]
  rfl

/-- When `previous_hash` is falsy and the chain is non-empty, `new_block`
succeeds and stores the hash of the last block. -/
theorem new_block_falsy (bc : Blockchain) (proof : Int) (ph : PyVal) (t : Nat)
    (h : ph.truthy = false) (hne : bc.chain ≠ []) :
    bc.new_block proof ph t = some
      (⟨bc.chain.length + 1, t, bc.currentTransactions, proof,
        PyVal.str (Blockchain.hash (bc.chain.getLast hne))⟩,
       { bc with currentTransactions := [],
                 chain := bc.chain ++ [⟨bc.chain.length + 1, t,
                   bc.currentTransactions, proof,
                   PyVal.str (Blockchain.hash (bc.chain.getLast hne))⟩] }) := by
  unfold Blockchain.new_block
  rw [h, List.getLast?_eq_getLast bc.chain hne]
  rfl

/-- C2: a freshly constructed Blockchain has a chain of length exactly 1;
its only block has index 1, the integer sentinel `1` as `previous_hash`, and
proof 100; no transactions are pending after construction. -/
theorem genesis_invariant (t : Nat) :
    (Blockchain.init t).chain.length = 1 ∧
    ((Blockchain.init t).chain.headD default).index = 1 ∧
    ((Blockchain.init t).chain.headD default).previous_hash = PyVal.int 1 ∧
    ((Blockchain.init t).chain.headD default).proof = 100 ∧
    (Blockchain.init t).currentTransactions = [] := by
  rw [genesis_state]
  exact ⟨rfl, rfl, rfl, rfl, rfl⟩

/-- C5: on a non-empty chain, `new_block(proof, previous_hash)` returns a
block with index `chain.length + 1`, the pre-call pending pool as its
transactions, the given proof, and the given `previous_hash` when it is
truthy; afterwards the pool is empty and the returned block has been
appended as the new last element of the chain. -/
theorem new_block_spec (bc : Blockchain) (proof : Int) (ph : PyVal) (t : Nat)
    (hne : bc.chain ≠ []) :
    ∃ blk bc', bc.new_block proof ph t = some (blk, bc') ∧
      blk.index = bc.chain.length + 1 ∧
      blk.transactions = bc.currentTransactions ∧
      blk.proof = proof ∧
      (ph.truthy = true → blk.previous_hash = ph) ∧
      bc'.currentTransactions = [] ∧
      bc'.chain = bc.chain ++ [blk] := by
  cases hb : ph.truthy with
  | true =>
      exact ⟨_, _, new_block_truthy bc proof ph t hb, rfl, rfl, rfl,
        fun _ => rfl, rfl, rfl⟩
  | false =>
      refine ⟨_, _, new_block_falsy bc proof ph t hb hne, rfl, rfl, rfl,
        ?_, rfl, rfl⟩
      intro hc
      simp [hb] at hc

/-- C7: on a non-empty chain, `new_block` called with the falsy value `0` as
`previous_hash` silently discards the argument and stores the computed hash
of the last block instead. -/
theorem new_block_zero_previous_hash (bc : Blockchain) (proof : Int) (t : Nat)
    (hne : bc.chain ≠ []) :
    ∃ blk bc', bc.new_block proof (PyVal.int 0) t = some (blk, bc') ∧
      blk.previous_hash = PyVal.str (Blockchain.hash (bc.chain.getLast hne)) ∧
      blk.previous_hash ≠ PyVal.int 0 := by
  exact ⟨_, _, new_block_falsy bc proof (PyVal.int 0) t rfl hne, rfl, by simp⟩

/-- C6: on a non-empty chain, `new_transaction(sender, recipient, amount)`
never fails, appends exactly `{sender, recipient, amount}` at the end of the
pending pool, leaves the chain unchanged, and returns
`last_block.index + 1`. -/
theorem new_transaction_spec (bc : Blockchain) (sender recipient : String)
    (amount : Int) (hne : bc.chain ≠ []) :
    (bc.new_transaction sender recipient amount).1 =
      some ((bc.chain.getLast hne).index + 1) ∧
    ((bc.new_transaction sender recipient amount).2).currentTransactions =
      bc.currentTransactions ++ [⟨sender, recipient, amount⟩] ∧
    ((bc.new_transaction sender recipient amount).2).chain = bc.chain := by
  refine ⟨?_, rfl, rfl⟩
  show bc.chain.getLast?.map (fun lb => lb.index + 1) =
    some ((bc.chain.getLast hne).index + 1)
  rw [List.getLast?_eq_getLast bc.chain hne]
  rfl

/-! ## C4: `proof_of_work` finds the least accepted proof -/

/-- C4: whenever some nonnegative proof is accepted for `last_block`,
`proof_of_work(last_block)` terminates and returns the least accepted proof:
its result is accepted and every smaller candidate is rejected, exactly as
the linear search starting at 0 and incrementing by 1 behaves. -/
theorem proof_of_work_spec (last_block : Block)
    (h : ∃ p : Nat, Blockchain.valid_proof last_block.proof (Int.ofNat p)
        (Blockchain.hash last_block) = true) :
    Blockchain.valid_proof last_block.proof
      (Int.ofNat (Blockchain.proof_of_work last_block h))
      (Blockchain.hash last_block) = true ∧
    ∀ q : Nat, q < Blockchain.proof_of_work last_block h →
      Blockchain.valid_proof last_block.proof (Int.ofNat q)
        (Blockchain.hash last_block) = false := by
  refine ⟨Nat.find_spec h, fun q hq => ?_⟩
  have hm := Nat.find_min h hq
  simpa using hm

/-! ## Behaviour of `mine` -/

/-- The block that `mine` forges on state `bc`, written out. -/
def minedBlock (bc : Blockchain) (node_identifier : String) (t : Nat)
    (hne : bc.chain ≠ [])
    (hp : ∃ p : Nat, Blockchain.valid_proof (bc.chain.getLast hne).proof
        (Int.ofNat p) (Blockchain.hash (bc.chain.getLast hne)) = true) :
    Block :=
  ⟨bc.chain.length + 1, t,
   bc.currentTransactions ++ [⟨"0", node_identifier, 1⟩],
   Int.ofNat (Blockchain.proof_of_work (bc.chain.getLast hne) hp),
   PyVal.str (Blockchain.hash (bc.chain.getLast hne))⟩

/-- The state after `mine` on state `bc`, written out. -/
def minedState (bc : Blockchain) (node_identifier : String) (t : Nat)
    (hne : bc.chain ≠ [])
    (hp : ∃ p : Nat, Blockchain.valid_proof (bc.chain.getLast hne).proof
        (Int.ofNat p) (Blockchain.hash (bc.chain.getLast hne)) = true) :
    Blockchain :=
  { bc with currentTransactions := [],
            chain := bc.chain ++ [minedBlock bc node_identifier t hne hp] }

theorem mine_spec (bc : Blockchain) (node_identifier : String) (t : Nat)
    (hne : bc.chain ≠ [])
    (hp : ∃ p : Nat, Blockchain.valid_proof (bc.chain.getLast hne).proof
        (Int.ofNat p) (Blockchain.hash (bc.chain.getLast hne)) = true) :
    ∃ blk bc', mine bc node_identifier t hne hp = some (blk, bc') ∧
      blk.index = bc.chain.length + 1 ∧
      blk.timestamp = t ∧
      blk.transactions =
        bc.currentTransactions ++ [⟨"0", node_identifier, 1⟩] ∧
      blk.proof = Int.ofNat
        (Blockchain.proof_of_work (bc.chain.getLast hne) hp) ∧
      blk.previous_hash =
        PyVal.str (Blockchain.hash (bc.chain.getLast hne)) ∧
      bc'.chain = bc.chain ++ [blk] ∧
      bc'.currentTransactions = [] ∧
      bc'.nodes = bc.nodes := by
  have htr : (PyVal.str (Blockchain.hash (bc.chain.getLast hne))).truthy
      = true := by
    simp [PyVal.truthy, hash_ne_empty]
  refine ⟨minedBlock bc node_identifier t hne hp,
    minedState bc node_identifier t hne hp,
    ?_, rfl, rfl, rfl, rfl, rfl, rfl, rfl, rfl⟩
  unfold mine
  exact new_block_truthy _ _ _ _ htr

theorem mine_inv (bc : Blockchain) (node_identifier : String) (t : Nat)
    (hne : bc.chain ≠ [])
    (hp : ∃ p : Nat, Blockchain.valid_proof (bc.chain.getLast hne).proof
        (Int.ofNat p) (Blockchain.hash (bc.chain.getLast hne)) = true)
    (blk : Block) (bc' : Blockchain)
    (he : mine bc node_identifier t hne hp = some (blk, bc')) :
    blk.index = bc.chain.length + 1 ∧
    blk.timestamp = t ∧
    blk.transactions = bc.currentTransactions ++ [⟨"0", node_identifier, 1⟩] ∧
    blk.proof = Int.ofNat
      (Blockchain.proof_of_work (bc.chain.getLast hne) hp) ∧
    blk.previous_hash = PyVal.str (Blockchain.hash (bc.chain.getLast hne)) ∧
    bc'.chain = bc.chain ++ [blk] ∧
    bc'.currentTransactions = [] ∧
    bc'.nodes = bc.nodes := by
  obtain ⟨b0, s0, he0, hprops⟩ := mine_spec bc node_identifier t hne hp
  rw [he0] at he
  simp only [Option.some.injEq, Prod.mk.injEq] at he
  obtain ⟨hb, hs⟩ := he
  subst hb
  subst hs
  exact hprops

/-! ## Reachable states and the chain-link invariant (C1) -/

/-- The hash link between consecutive blocks: the later block stores the
hash of its stored predecessor. -/
def chainLink (a b : Block) : Prop :=
  b.previous_hash = PyVal.str (Blockchain.hash a)

/-- States reachable from a freshly constructed `Blockchain` by any sequence
of `mine` and `new_transaction` operations. -/
inductive Reachable : Blockchain → Prop where
  | start (t : Nat) : Reachable (Blockchain.init t)
  | tx (bc : Blockchain) (sender recipient : String) (amount : Int)
      (h : Reachable bc) :
      Reachable (bc.new_transaction sender recipient amount).2
  | mined (bc : Blockchain) (node_identifier : String) (t : Nat)
      (hne : bc.chain ≠ [])
      (hp : ∃ p : Nat, Blockchain.valid_proof (bc.chain.getLast hne).proof
          (Int.ofNat p) (Blockchain.hash (bc.chain.getLast hne)) = true)
      (blk : Block) (bc' : Blockchain) (h : Reachable bc)
      (he : mine bc node_identifier t hne hp = some (blk, bc')) :
      Reachable bc'

theorem reachable_chain_linked (bc : Blockchain) (h : Reachable bc) :
    List.Chain' chainLink bc.chain := by
  induction h with
  | start t =>
      rw [genesis_state]
      exact List.chain'_singleton _
  | tx bc s r a h ih => exact ih
  | mined bc nid t hne hp blk bc' h he ih =>
      obtain ⟨hidx, hts, htx, hpf, hph, hchain, hpool, hnodes⟩ :=
        mine_inv bc nid t hne hp blk bc' he
      rw [hchain, List.chain'_append]
      refine ⟨ih, List.chain'_singleton _, ?_⟩
      intro x hx y hy
      rw [List.getLast?_eq_getLast bc.chain hne, Option.mem_some_iff] at hx
      simp only [List.head?_cons, Option.mem_some_iff] at hy
      subst hx
      subst hy
      exact hph

/-- C1: in every state reachable from a freshly constructed Blockchain by
any sequence of `mine` and `new_transaction` operations, every block after
the first stores the hash of its stored predecessor:
`chain[i].previous_hash = hash(chain[i-1])` for all `i > 0`. -/
theorem chain_link_invariant (bc : Blockchain) (h : Reachable bc) (i : Nat)
    (hi : i + 1 < bc.chain.length) :
    (bc.chain.getD (i + 1) default).previous_hash =
      PyVal.str (Blockchain.hash (bc.chain.getD i default)) := by
  have hc := reachable_chain_linked bc h
  rw [List.chain'_iff_get] at hc
  have hl := hc i (by omega)
  have h1 : i < bc.chain.length := by omega
  rw [List.getD_eq_getElem _ _ hi, List.getD_eq_getElem _ _ h1]
  unfold chainLink at hl
  simpa using hl

/-! ## One-step operations and frame conditions (C9, C10) -/

/-- Inversion for a successful `new_block`: the new state is the old one
with the pool cleared and the returned block appended. -/
theorem new_block_some_inv (bc : Blockchain) (proof : Int) (ph : PyVal)
    (t : Nat) (blk : Block) (bc' : Blockchain)
    (h : bc.new_block proof ph t = some (blk, bc')) :
    bc' = { bc with currentTransactions := [],
                    chain := bc.chain ++ [blk] } := by
  unfold Blockchain.new_block at h
  cases htr : ph.truthy with
  | true =>
      rw [htr] at h
      simp only [if_true, Option.map_some', Option.some.injEq,
        Prod.mk.injEq] at h
      obtain ⟨hb, hs⟩ := h
      rw [← hs, ← hb]
  | false =>
      rw [htr] at h
      cases hgl : bc.chain.getLast? with
      | none =>
          rw [hgl] at h
          simp at h
      | some lb =>
          rw [hgl] at h
          simp only [Bool.false_eq_true, if_false, Option.map_some',
            Option.some.injEq, Prod.mk.injEq] at h
          obtain ⟨hb, hs⟩ := h
          rw [← hs, ← hb]

/-- One externally triggered operation on the state.  `hash`, `valid_proof`
and `proof_of_work` are pure functions of their arguments and do not touch
the state; reading the chain is the identity step. -/
inductive LedgerStep : Blockchain → Blockchain → Prop where
  | tx (bc : Blockchain) (sender recipient : String) (amount : Int) :
      LedgerStep bc (bc.new_transaction sender recipient amount).2
  | forge (bc : Blockchain) (proof : Int) (ph : PyVal) (t : Nat)
      (blk : Block) (bc' : Blockchain)
      (h : bc.new_block proof ph t = some (blk, bc')) : LedgerStep bc bc'
  | mined (bc : Blockchain) (node_identifier : String) (t : Nat)
      (hne : bc.chain ≠ [])
      (hp : ∃ p : Nat, Blockchain.valid_proof (bc.chain.getLast hne).proof
          (Int.ofNat p) (Blockchain.hash (bc.chain.getLast hne)) = true)
      (blk : Block) (bc' : Blockchain)
      (he : mine bc node_identifier t hne hp = some (blk, bc')) :
      LedgerStep bc bc'
  | read (bc : Blockchain) : LedgerStep bc bc

/-- C9: the chain is append-only and appended blocks are immutable: every
operation either leaves the chain unchanged or appends exactly one block at
the end (never reordering or truncating), and in either case the old chain
persists unchanged as the prefix of the new one. -/
theorem chain_append_only (bc bc' : Blockchain) (h : LedgerStep bc bc') :
    (bc'.chain = bc.chain ∨ ∃ blk, bc'.chain = bc.chain ++ [blk]) ∧
    bc'.chain.take bc.chain.length = bc.chain := by
  have key : bc'.chain = bc.chain ∨ ∃ blk, bc'.chain = bc.chain ++ [blk] := by
    cases h with
    | tx s r a => exact Or.inl rfl
    | forge p ph t blk w hb =>
        right
        exact ⟨blk, by rw [new_block_some_inv bc p ph t blk bc' hb]⟩
    | mined nid t hne hp blk w he =>
        right
        exact ⟨blk, (mine_inv bc nid t hne hp blk bc' he).2.2.2.2.2.1⟩
    | read => exact Or.inl rfl
  refine ⟨key, ?_⟩
  rcases key with heq | ⟨blk, heq⟩
  · rw [heq, List.take_length]
  · rw [heq, List.take_left]

/-- C10: the nodes set is empty after construction and no operation ever
reads or modifies it: every step leaves it unchanged. -/
theorem nodes_untouched :
    (∀ t, (Blockchain.init t).nodes = ∅) ∧
    ∀ bc bc', LedgerStep bc bc' → bc'.nodes = bc.nodes := by
  refine ⟨fun t => by rw [genesis_state], fun bc bc' h => ?_⟩
  cases h with
  | tx s r a => rfl
  | forge p ph t blk w hb => rw [new_block_some_inv bc p ph t blk bc' hb]
  | mined nid t hne hp blk w he =>
      exact (mine_inv bc nid t hne hp blk bc' he).2.2.2.2.2.2.2
  | read => rfl

/-! ## C8: the alice-to-bob mining scenario -/

theorem getLast_eq_of_eq_singleton {α : Type} (l : List α) (h : l ≠ [])
    (a : α) (hl : l = [a]) : l.getLast h = a := by
  subst hl
  rfl

/-- The call `mine` always succeeds under its hypotheses, forging exactly the block
and state written out by `minedBlock` and `minedState`. -/
theorem mine_eq (bc : Blockchain) (node_identifier : String) (t : Nat)
    (hne : bc.chain ≠ [])
    (hp : ∃ p : Nat, Blockchain.valid_proof (bc.chain.getLast hne).proof
        (Int.ofNat p) (Blockchain.hash (bc.chain.getLast hne)) = true) :
    mine bc node_identifier t hne hp =
      some (minedBlock bc node_identifier t hne hp,
            minedState bc node_identifier t hne hp) := by
  have htr : (PyVal.str (Blockchain.hash (bc.chain.getLast hne))).truthy
      = true := by
    simp [PyVal.truthy, hash_ne_empty]
  unfold mine
  exact new_block_truthy _ _ _ _ htr

/-- The state after submitting the alice-to-bob transaction to a freshly
constructed Blockchain (genesis clock `t0`). -/
def scenarioState (t0 : Nat) : Blockchain :=
  ((Blockchain.init t0).new_transaction "alice" "bob" 5).2

/-- C8: on a fresh Blockchain, `new_transaction("alice", "bob", 5)` returns
2; a subsequent `mine` forges a block with index 2 whose transactions are
the alice-to-bob transaction followed by the reward transaction
`{sender: "0", recipient: node_identifier, amount: 1}` (the reward is
appended to the pool before the block is forged), and whose `previous_hash`
is the hash of the genesis block. -/
theorem mine_scenario (node_identifier : String) (t0 t1 : Nat) :
    ((Blockchain.init t0).new_transaction "alice" "bob" 5).1 = some 2 ∧
    ∀ (hne : (scenarioState t0).chain ≠ [])
      (hp : ∃ p : Nat, Blockchain.valid_proof
          ((scenarioState t0).chain.getLast hne).proof (Int.ofNat p)
          (Blockchain.hash ((scenarioState t0).chain.getLast hne)) = true)
      (blk : Block) (bc' : Blockchain),
      mine (scenarioState t0) node_identifier t1 hne hp = some (blk, bc') →
      blk.index = 2 ∧
      blk.transactions = [⟨"alice", "bob", 5⟩, ⟨"0", node_identifier, 1⟩] ∧
      blk.previous_hash =
        PyVal.str (Blockchain.hash ⟨1, t0, [], 100, PyVal.int 1⟩) := by
  have hch : (scenarioState t0).chain = [⟨1, t0, [], 100, PyVal.int 1⟩] := by
    show (Blockchain.init t0).chain = _
    rw [genesis_state]
  have hct : (scenarioState t0).currentTransactions =
      [⟨"alice", "bob", 5⟩] := by
    show (Blockchain.init t0).currentTransactions ++ [⟨"alice", "bob", 5⟩] = _
    rw [genesis_state]
    rfl
  constructor
  · show (Blockchain.init t0).chain.getLast?.map (fun lb => lb.index + 1)
      = some 2
    rw [genesis_state]
    rfl
  · intro hne hp blk bc' he
    obtain ⟨hidx, hts, htx, hpf, hph, hchain, hpool, hnodes⟩ :=
      mine_inv (scenarioState t0) node_identifier t1 hne hp blk bc' he
    have hgl : (scenarioState t0).chain.getLast hne
        = (⟨1, t0, [], 100, PyVal.int 1⟩ : Block) :=
      getLast_eq_of_eq_singleton _ hne _ hch
    refine ⟨?_, ?_, ?_⟩
    · rw [hidx, hch]
      rfl
    · rw [htx, hct]
      rfl
    · rw [hph, hgl]

/-! ## Concrete witnesses -/

theorem init0_chain_ne : (Blockchain.init 0).chain ≠ [] := by
  rw [genesis_state]
  simp

theorem init_chain_length (t : Nat) : (Blockchain.init t).chain.length = 1 := by
  rw [genesis_state]
  rfl

theorem init0_getLast :
    (Blockchain.init 0).chain.getLast init0_chain_ne = genesisBlock0 :=
  getLast_eq_of_eq_singleton _ _ _ (by rw [genesis_state]; rfl)

theorem init0_pow_exists :
    ∃ p : Nat, Blockchain.valid_proof
      ((Blockchain.init 0).chain.getLast init0_chain_ne).proof (Int.ofNat p)
      (Blockchain.hash ((Blockchain.init 0).chain.getLast init0_chain_ne))
      = true :=
  ⟨demoNonce, by rw [init0_getLast]; exact demoNonce_valid⟩

/-- The two-block state obtained by mining once on a fresh clock-0
Blockchain. -/
def demoMinedState : Blockchain :=
  minedState (Blockchain.init 0) "node" 1 init0_chain_ne init0_pow_exists

theorem demoMinedState_reachable : Reachable demoMinedState :=
  Reachable.mined (Blockchain.init 0) "node" 1 init0_chain_ne
    init0_pow_exists _ _ (Reachable.start 0)
    (mine_eq (Blockchain.init 0) "node" 1 init0_chain_ne init0_pow_exists)

theorem demoMinedState_chain_length : demoMinedState.chain.length = 2 := by
  show ((Blockchain.init 0).chain ++
    [minedBlock (Blockchain.init 0) "node" 1 init0_chain_ne
      init0_pow_exists]).length = 2
  rw [List.length_append, init_chain_length]
  rfl

/-- C1 witness: the chain-link invariant evaluated on a concretely mined
two-block chain. -/
theorem chain_link_invariant_witness :
    Reachable demoMinedState ∧ 0 + 1 < demoMinedState.chain.length ∧
    (demoMinedState.chain.getD 1 default).previous_hash =
      PyVal.str (Blockchain.hash (demoMinedState.chain.getD 0 default)) := by
  have hlen : 0 + 1 < demoMinedState.chain.length := by
    rw [demoMinedState_chain_length]
    omega
  exact ⟨demoMinedState_reachable, hlen,
    chain_link_invariant demoMinedState demoMinedState_reachable 0 hlen⟩

/-- C3 witness: an accepted triple whose digest starts with `"00000"`. -/
theorem valid_proof_leading_zeros_witness :
    (sha256String (toString (100 : Int) ++ toString (Int.ofNat demoNonce) ++
      Blockchain.hash genesisBlock0)).take 5 = "00000" :=
  (valid_proof_leading_zeros 100 (Int.ofNat demoNonce)
    (Blockchain.hash genesisBlock0)).2 demoNonce_valid

theorem genesis_pow_exists :
    ∃ p : Nat, Blockchain.valid_proof genesisBlock0.proof (Int.ofNat p)
      (Blockchain.hash genesisBlock0) = true :=
  ⟨demoNonce, demoNonce_valid⟩

/-- C4 witness: `proof_of_work` on the clock-0 genesis block returns an
accepted proof. -/
theorem proof_of_work_spec_witness :
    Blockchain.valid_proof genesisBlock0.proof
      (Int.ofNat (Blockchain.proof_of_work genesisBlock0 genesis_pow_exists))
      (Blockchain.hash genesisBlock0) = true :=
  (proof_of_work_spec genesisBlock0 genesis_pow_exists).1

/-- C5 witness: `new_block` on the fresh clock-0 state with a truthy
`previous_hash`. -/
theorem new_block_spec_witness :
    ∃ blk bc',
      (Blockchain.init 0).new_block 7 (PyVal.str "prev") 3 = some (blk, bc') ∧
      blk.index = (Blockchain.init 0).chain.length + 1 ∧
      blk.transactions = (Blockchain.init 0).currentTransactions ∧
      blk.proof = 7 ∧
      ((PyVal.str "prev").truthy = true →
        blk.previous_hash = PyVal.str "prev") ∧
      bc'.currentTransactions = [] ∧
      bc'.chain = (Blockchain.init 0).chain ++ [blk] :=
  new_block_spec (Blockchain.init 0) 7 (PyVal.str "prev") 3 init0_chain_ne

/-- C6 witness: `new_transaction` on the fresh clock-0 state. -/
theorem new_transaction_spec_witness :
    ((Blockchain.init 0).new_transaction "alice" "bob" 5).1 =
      some (((Blockchain.init 0).chain.getLast init0_chain_ne).index + 1) ∧
    (((Blockchain.init 0).new_transaction "alice" "bob" 5).2).currentTransactions
      = (Blockchain.init 0).currentTransactions ++ [⟨"alice", "bob", 5⟩] ∧
    (((Blockchain.init 0).new_transaction "alice" "bob" 5).2).chain =
      (Blockchain.init 0).chain :=
  new_transaction_spec (Blockchain.init 0) "alice" "bob" 5 init0_chain_ne

/-- C7 witness: `new_block` with the falsy `previous_hash = 0` on the fresh
clock-0 state. -/
theorem new_block_zero_previous_hash_witness :
    ∃ blk bc',
      (Blockchain.init 0).new_block 7 (PyVal.int 0) 3 = some (blk, bc') ∧
      blk.previous_hash = PyVal.str (Blockchain.hash
        ((Blockchain.init 0).chain.getLast init0_chain_ne)) ∧
      blk.previous_hash ≠ PyVal.int 0 :=
  new_block_zero_previous_hash (Blockchain.init 0) 7 3 init0_chain_ne

theorem scenario0_ne : (scenarioState 0).chain ≠ [] := init0_chain_ne

theorem scenario0_getLast :
    (scenarioState 0).chain.getLast scenario0_ne = genesisBlock0 :=
  getLast_eq_of_eq_singleton _ _ _ (by
    show (Blockchain.init 0).chain = _
    rw [genesis_state]
    rfl)

theorem scenario0_pow_exists :
    ∃ p : Nat, Blockchain.valid_proof
      ((scenarioState 0).chain.getLast scenario0_ne).proof (Int.ofNat p)
      (Blockchain.hash ((scenarioState 0).chain.getLast scenario0_ne))
      = true :=
  ⟨demoNonce, by rw [scenario0_getLast]; exact demoNonce_valid⟩

/-- C8 witness: the scenario run concretely at clock 0 with node id
`"node"`. -/
theorem mine_scenario_witness :
    ((Blockchain.init 0).new_transaction "alice" "bob" 5).1 = some 2 ∧
    (minedBlock (scenarioState 0) "node" 1 scenario0_ne
      scenario0_pow_exists).index = 2 ∧
    (minedBlock (scenarioState 0) "node" 1 scenario0_ne
      scenario0_pow_exists).transactions =
      [⟨"alice", "bob", 5⟩, ⟨"0", "node", 1⟩] ∧
    (minedBlock (scenarioState 0) "node" 1 scenario0_ne
      scenario0_pow_exists).previous_hash =
      PyVal.str (Blockchain.hash ⟨1, 0, [], 100, PyVal.int 1⟩) := by
  have h := mine_scenario "node" 0 1
  exact ⟨h.1, h.2 scenario0_ne scenario0_pow_exists _ _
    (mine_eq (scenarioState 0) "node" 1 scenario0_ne scenario0_pow_exists)⟩

/-- C9 witness: one concrete transaction step neither reorders nor
truncates the chain. -/
theorem chain_append_only_witness :
    ((((Blockchain.init 0).new_transaction "carol" "dave" 2).2).chain =
        (Blockchain.init 0).chain ∨
      ∃ blk,
        (((Blockchain.init 0).new_transaction "carol" "dave" 2).2).chain =
          (Blockchain.init 0).chain ++ [blk]) ∧
    (((Blockchain.init 0).new_transaction "carol" "dave" 2).2).chain.take
      (Blockchain.init 0).chain.length = (Blockchain.init 0).chain :=
  chain_append_only _ _
    (LedgerStep.tx (Blockchain.init 0) "carol" "dave" 2)

/-- C10 witness: the node set of a fresh state is empty and survives a
concrete step unchanged. -/
theorem nodes_untouched_witness :
    (Blockchain.init 0).nodes = ∅ ∧
    (((Blockchain.init 0).new_transaction "carol" "dave" 2).2).nodes =
      (Blockchain.init 0).nodes :=
  ⟨nodes_untouched.1 0,
   nodes_untouched.2 _ _ (LedgerStep.tx (Blockchain.init 0) "carol" "dave" 2)⟩
